import Mathlib

/-!
# The number-draw engine of the BINGO game (`src/script.js`, class `BingoGame`)

A shallow embedding of `BingoGame.drawNumber`, `BingoGame.startRouletteAnimation`
(with its inner `animate` tick), the completion callback passed to it, and
`BingoGame.resetGame`.

* `Math.random()` is a stream of doubles of `[0, 1)`; a rejection loop runs on that
  stream with a fuel bound, and answers `none` when the fuel is used up before the
  loop has stopped.
* `Math.random() * this.maxNumber` is the product of doubles, rounded to the nearest
  double, ties to even (`timesMaxNumber`); the numbers drawn are integers.
* The clock, `progress` and `speed` are exact rationals. So are the hue and the tick
  frequency recorded in the effects: the code computes these two in doubles, and no
  claim is about their values.
* `Date.now() - startTime` is an input of every tick.
* A JavaScript `Set` of numbers is the list of its members in insertion order.
* DOM updates, sound cues, dialogs and timers are recorded as a list of `Effect`s.
* The pending timers of the running animations are the `spins` of the state.
-/

namespace Bingo

/-- A value returned by `Math.random()`: a double of the half-open unit interval,
`mant / 2 ^ exp` with a significand of at most 53 bits and an exponent no smaller than
that of the subnormal doubles. Every double of `[0, 1)` has this form (the normal
ones with `2 ^ 52 ≤ mant` and `53 ≤ exp`, zero and the subnormal ones with
`exp = 1074`), and every number of this form is such a double. -/
structure Rand where
  mant : ℕ
  exp : ℕ
  mant_lt : mant < 2 ^ 53
  exp_le : exp ≤ 1074
  lt_one : mant < 2 ^ exp

/-- The number a double of `[0, 1)` stands for. -/
def Rand.val (r : Rand) : ℚ :=
  (r.mant : ℚ) / ((2 ^ r.exp : ℕ) : ℚ)

/-- The values returned by the successive calls of `Math.random()`. -/
abbrev RandomSource := ℕ → Rand

/-- The source's `this.maxNumber = 75` (set in the constructor, never assigned again). -/
def maxNumber : ℕ := 75

/-- The source's `const duration = 3000` of `startRouletteAnimation`. -/
def duration : ℚ := 3000

/-- The two `alert` texts of `drawNumber`. -/
inductive Notice
  | allDrawn
  | gameOver
  deriving DecidableEq, Repr

/-- What a call does to the page, the loudspeaker and the timer queue. -/
inductive Effect
  | alert (notice : Notice)
  | confirm
  | playButtonClick
  | playDrumRoll
  | playTickSound (frequency : ℚ)
  | playFanfare
  | drawButtonDisabled (disabled : Bool)
  | displaySpinning (active : Bool)
  | displayFinal (active : Bool)
  | displayText (number : ℤ)
  | displayHue (hue : ℚ)
  | displayGreen
  | displayDash
  | setTimeoutAnimate (delay : ℚ)
  | setTimeoutCallback (delay : ℚ)
  | setTimeoutAlert (notice : Notice) (delay : ℚ)
  | markNumber (number : ℤ)
  | updateDrawnNumbersList (sorted : List ℤ)
  | celebrateNumber (number : ℤ)
  | clearDrawnNumbersList
  | clearBoard
  deriving DecidableEq, Repr

/-- One running `startRouletteAnimation`: its `targetNumber`, and which of its two
timers is pending (`settled = false`: the next `animate`; `settled = true`: the
500 ms timer that runs the callback). -/
structure Spin where
  targetNumber : ℤ
  settled : Bool
  deriving DecidableEq, Repr

/-- The fields of a `BingoGame` object, and the animations it has started. -/
structure BingoGame where
  drawnNumbers : List ℤ
  currentNumber : Option ℤ
  isDrawing : Bool
  spins : List Spin
  deriving DecidableEq, Repr

/-- The object built by `new BingoGame()`. -/
def BingoGame.new : BingoGame :=
  { drawnNumbers := [], currentNumber := none, isDrawing := false, spins := [] }

/-- `Set.prototype.add`: a member is not added twice. -/
def setAdd (set : List ℤ) (n : ℤ) : List ℤ :=
  if n ∈ set then set else set ++ [n]

/-- Rounding of a natural number to a significand of 53 bits, to the nearest, ties to
even: what IEEE 754 double arithmetic does to an exact result `n * 2 ^ e` that lies in
the range of the normal doubles, or is a subnormal double itself. -/
def roundToDouble (n : ℕ) : ℕ :=
  if n < 2 ^ 53 then n
  else
    let shift := Nat.log2 n - 52
    let q := n / 2 ^ shift
    let rem := n % 2 ^ shift
    let half := 2 ^ (shift - 1)
    if rem > half ∨ (rem = half ∧ q % 2 = 1) then (q + 1) * 2 ^ shift else q * 2 ^ shift

/-- The double `Math.random() * this.maxNumber`: the exact product
`mant * 75 / 2 ^ exp`, rounded to a double. -/
def timesMaxNumber (r : Rand) : ℚ :=
  (roundToDouble (r.mant * maxNumber) : ℚ) / ((2 ^ r.exp : ℕ) : ℚ)

/-- `Math.floor(Math.random() * this.maxNumber) + 1`. -/
def randomNumber (r : Rand) : ℤ :=
  ⌊timesMaxNumber r⌋ + 1

/-- The source's loop
`do { n = Math.floor(Math.random() * this.maxNumber) + 1 } while (this.drawnNumbers.has(n))`
reading the random values from index `i` on: the number it ends with and the index of
the next unread random value; `none` when `fuel` iterations did not end it. -/
def sampleLoop (drawnNumbers : List ℤ) (rnd : RandomSource) : ℕ → ℕ → Option (ℤ × ℕ)
  | 0, _ => none
  | fuel + 1, i =>
    if randomNumber (rnd i) ∈ drawnNumbers then sampleLoop drawnNumbers rnd fuel (i + 1)
    else some (randomNumber (rnd i), i + 1)

/-- The speed policy of `animate` as a function of `progress`:
`if (progress < 0.7) speed = 50; else if (progress < 0.9) speed = 100 + (progress - 0.7) * 500;
else speed = 200 + (progress - 0.9) * 2000`. -/
def speedOf (progress : ℚ) : ℚ :=
  if progress < 7 / 10 then 50
  else if progress < 9 / 10 then 100 + (progress - 7 / 10) * 500
  else 200 + (progress - 9 / 10) * 2000

/-- One run of the closure `animate` of the `i`-th running animation, at
`elapsed = Date.now() - startTime`, reading the random values from index `k` on.
`none`: no `animate` timer of that animation is pending, or the decoy loop did not
end within `fuel` iterations. -/
def animate (s : BingoGame) (i : ℕ) (elapsed : ℚ) (rnd : RandomSource) (k fuel : ℕ) :
    Option (BingoGame × List Effect) :=
  match s.spins.get? i with
  | none => none
  | some spin =>
    if spin.settled then none
    else
      let progress := elapsed / duration
      let speed := speedOf progress
      if elapsed < duration then
        match sampleLoop s.drawnNumbers rnd fuel k with
        | none => none
        | some (decoy, j) =>
          some (s, [Effect.displayText decoy,
                    Effect.displayHue ((rnd j).val * 360),
                    Effect.playTickSound (400 + (rnd (j + 1)).val * 800),
                    Effect.setTimeoutAnimate speed])
      else
        some ({ s with spins := s.spins.set i { spin with settled := true } },
              [Effect.displaySpinning false,
               Effect.displayText spin.targetNumber,
               Effect.displayGreen,
               Effect.displayFinal true,
               Effect.setTimeoutCallback 500])

/-- `startRouletteAnimation(targetNumber, callback)`: a new animation, whose first
`animate()` runs at once, at the `elapsed` the clock gives it. -/
def startRouletteAnimation (s : BingoGame) (targetNumber : ℤ) (elapsed : ℚ)
    (rnd : RandomSource) (k fuel : ℕ) : Option (BingoGame × List Effect) :=
  match animate { s with spins := s.spins ++ [{ targetNumber := targetNumber, settled := false }] }
      s.spins.length elapsed rnd k fuel with
  | none => none
  | some (s', out) => some (s', Effect.displaySpinning true :: out)

/-- `drawNumber()`. `elapsed` is what the first `animate()` reads from the clock;
`none` when one of the two rejection loops did not end within `fuel` iterations. -/
def drawNumber (s : BingoGame) (elapsed : ℚ) (rnd : RandomSource) (fuel : ℕ) :
    Option (BingoGame × List Effect) :=
  if s.isDrawing then some (s, [])
  else if s.drawnNumbers.length ≥ maxNumber then some (s, [Effect.alert Notice.allDrawn])
  else
    match sampleLoop s.drawnNumbers rnd fuel 0 with
    | none => none
    | some (finalNumber, k) =>
      match startRouletteAnimation { s with isDrawing := true } finalNumber elapsed rnd k fuel with
      | none => none
      | some (s', out) =>
        some (s', [Effect.playButtonClick, Effect.drawButtonDisabled true, Effect.playDrumRoll]
                    ++ out)

/-- The 500 ms timer of the `i`-th running animation fires: the callback that
`drawNumber` passed to `startRouletteAnimation` runs. `none`: no such timer is pending. -/
def completionCallback (s : BingoGame) (i : ℕ) : Option (BingoGame × List Effect) :=
  match s.spins.get? i with
  | none => none
  | some spin =>
    if spin.settled then
      let finalNumber := spin.targetNumber
      let drawn := setAdd s.drawnNumbers finalNumber
      some ({ drawnNumbers := drawn,
              currentNumber := some finalNumber,
              isDrawing := false,
              spins := s.spins.eraseIdx i },
            [Effect.displayFinal false,
             Effect.playFanfare,
             Effect.markNumber finalNumber,
             Effect.updateDrawnNumbersList (drawn.insertionSort (· ≤ ·)),
             Effect.celebrateNumber finalNumber,
             Effect.drawButtonDisabled false]
              ++ (if drawn.length = maxNumber then [Effect.setTimeoutAlert Notice.gameOver 500]
                  else []))
    else none

/-- `resetGame()`; `answer` is what `confirm` returns when it is called. -/
def resetGame (s : BingoGame) (answer : Bool) : BingoGame × List Effect :=
  if s.drawnNumbers.length > 0 then
    if !answer then (s, [Effect.confirm])
    else ({ s with drawnNumbers := [], currentNumber := none },
          [Effect.confirm, Effect.displayDash, Effect.clearDrawnNumbersList, Effect.clearBoard])
  else ({ s with drawnNumbers := [], currentNumber := none },
        [Effect.displayDash, Effect.clearDrawnNumbersList, Effect.clearBoard])

/-- What can happen to a game: a click on either button, or one of the pending timers
of a running animation firing. -/
inductive Step : BingoGame → BingoGame → Prop
  | draw (s s' : BingoGame) (out : List Effect) (elapsed : ℚ) (rnd : RandomSource) (fuel : ℕ) :
      drawNumber s elapsed rnd fuel = some (s', out) → Step s s'
  | tick (s s' : BingoGame) (out : List Effect) (i : ℕ) (elapsed : ℚ) (rnd : RandomSource)
      (k fuel : ℕ) :
      animate s i elapsed rnd k fuel = some (s', out) → Step s s'
  | complete (s s' : BingoGame) (out : List Effect) (i : ℕ) :
      completionCallback s i = some (s', out) → Step s s'
  | reset (s : BingoGame) (answer : Bool) : Step s (resetGame s answer).1

/-- The states a new game gets to. -/
inductive Reachable : BingoGame → Prop
  | init : Reachable BingoGame.new
  | step (s s' : BingoGame) : Reachable s → Step s s' → Reachable s'

/-- What holds in every state a new game gets to: the drawn numbers are distinct
numbers of `[1, 75]`, at most one animation runs, none runs unless `isDrawing`, and the
target of a running animation is an undrawn number of `[1, 75]`. -/
def Inv (s : BingoGame) : Prop :=
  s.drawnNumbers.Nodup ∧ (∀ v ∈ s.drawnNumbers, 1 ≤ v ∧ v ≤ 75) ∧
  s.spins.length ≤ 1 ∧ (s.isDrawing = false → s.spins = []) ∧
  (∀ sp ∈ s.spins, sp.targetNumber ∉ s.drawnNumbers ∧ 1 ≤ sp.targetNumber ∧
    sp.targetNumber ≤ 75)

/-- Ticks of the animation `i` alone, any number of them. -/
inductive Ticks (i : ℕ) : BingoGame → BingoGame → Prop
  | done (s : BingoGame) : Ticks i s s
  | tick (s s' s'' : BingoGame) (out : List Effect) (elapsed : ℚ) (rnd : RandomSource)
      (k fuel : ℕ) :
      animate s i elapsed rnd k fuel = some (s', out) → Ticks i s' s'' → Ticks i s s''

/-- One successful draw: a request that is accepted, the ticks of the animation it
starts, and the callback of that animation; nothing else in between. -/
def SuccessfulDraw (s s' : BingoGame) : Prop :=
  s.isDrawing = false ∧ s.drawnNumbers.length < maxNumber ∧
  ∃ (elapsed : ℚ) (rnd : RandomSource) (fuel : ℕ) (s₁ s₂ : BingoGame) (out₁ out₂ : List Effect),
    drawNumber s elapsed rnd fuel = some (s₁, out₁) ∧ Ticks s.spins.length s₁ s₂ ∧
    completionCallback s₂ s.spins.length = some (s', out₂)

/-- A run of `n` successful draws, one after the other. -/
inductive SuccessfulDraws : ℕ → BingoGame → BingoGame → Prop
  | zero (s : BingoGame) : SuccessfulDraws 0 s s
  | succ (n : ℕ) (s s' s'' : BingoGame) :
      SuccessfulDraws n s s' → SuccessfulDraw s' s'' → SuccessfulDraws (n + 1) s s''

/-- The smallest multiple of `1 / 128` that is at least `(n mod 75) / 75`, a double
that stands for the number `n mod 75 + 1`. -/
def Rand.ofIndex (n : ℕ) : Rand :=
  { mant := (128 * (n % 75) + 74) / 75
    exp := 7
    mant_lt := by
      have h := Nat.mod_lt n (show 75 > 0 by norm_num)
      have hpow : (2 : ℕ) ^ 53 = 9007199254740992 := by norm_num
      omega
    exp_le := by norm_num
    lt_one := by
      have h := Nat.mod_lt n (show 75 > 0 by norm_num)
      have hpow : (2 : ℕ) ^ 7 = 128 := by norm_num
      omega }

/-- A random source that returns `Rand.ofIndex n` at every call. -/
def constSource (n : ℕ) : RandomSource := fun _ => Rand.ofIndex n

/-- The double that the literal `0.24` denotes, `0x1.eb851eb851eb8p-3`: a little less
than `18 / 75`. -/
def Rand.near024 : Rand :=
  { mant := 8646911284551352
    exp := 55
    mant_lt := by norm_num
    exp_le := by norm_num
    lt_one := by norm_num }

/-- The game after the numbers `1, ..., n` have been drawn in this order. -/
def stateAfter : ℕ → BingoGame
  | 0 => BingoGame.new
  | n + 1 =>
    { drawnNumbers := (stateAfter n).drawnNumbers ++ [(n : ℤ) + 1],
      currentNumber := some ((n : ℤ) + 1),
      isDrawing := false,
      spins := [] }

/-- The clock of a tick loop whose timers fire exactly on time: the first `animate()` runs
at `elapsed = 0`, and a tick at `elapsed < duration` schedules the next one `speed`
milliseconds later. -/
def idealElapsed : ℕ → ℚ
  | 0 => 0
  | n + 1 =>
    if idealElapsed n < duration then idealElapsed n + speedOf (idealElapsed n / duration)
    else idealElapsed n

/-- The game in which, after the draws of 1 and 2, a request was accepted with the
target 5, `resetGame` was confirmed during the spin, and the animation has settled. -/
def resetDuringSpin : BingoGame :=
  { drawnNumbers := [], currentNumber := none, isDrawing := true,
    spins := [{ targetNumber := 5, settled := true }] }

/-! ## The random numbers and the rejection loop -/

theorem Rand.val_nonneg (r : Rand) : 0 ≤ r.val := by
  unfold Rand.val
  positivity

theorem Rand.val_lt_one (r : Rand) : r.val < 1 := by
  unfold Rand.val
  rw [div_lt_one (by positivity)]
  exact_mod_cast r.lt_one

/-- Rounding a number of at most 60 bits to 53 bits moves it up by at most 64. -/
theorem roundToDouble_le (n : ℕ) (hn : n < 2 ^ 60) : roundToDouble n ≤ n + 64 := by
  unfold roundToDouble
  split
  · omega
  · rename_i hbig
    have hn0 : n ≠ 0 := by
      intro h
      subst h
      simp at hbig
    have hlog_lt : Nat.log2 n < 60 := (Nat.log2_lt hn0).2 hn
    have hlog_ge : 53 ≤ Nat.log2 n := (Nat.le_log2 hn0).2 (by omega)
    simp only
    generalize hs : Nat.log2 n - 52 = shift
    have hpow : 2 ^ shift = 2 * 2 ^ (shift - 1) := by
      rw [← pow_succ']
      congr 1
      omega
    have hhalf : 2 ^ (shift - 1) ≤ 64 := by
      calc 2 ^ (shift - 1) ≤ 2 ^ 6 := Nat.pow_le_pow_right (by norm_num) (by omega)
        _ = 64 := by norm_num
    have hdm := Nat.div_add_mod n (2 ^ shift)
    rw [Nat.mul_comm] at hdm
    split
    · rename_i hup
      have hrem : 2 ^ (shift - 1) ≤ n % 2 ^ shift := by
        rcases hup with h | h <;> omega
      rw [Nat.add_mul, Nat.one_mul]
      omega
    · omega

/-- Rounding a number of at most 60 bits to 53 bits moves it down by at most 64. -/
theorem le_roundToDouble (n : ℕ) (hn : n < 2 ^ 60) : n ≤ roundToDouble n + 64 := by
  unfold roundToDouble
  split
  · omega
  · rename_i hbig
    have hn0 : n ≠ 0 := by
      intro h
      subst h
      simp at hbig
    have hlog_lt : Nat.log2 n < 60 := (Nat.log2_lt hn0).2 hn
    have hlog_ge : 53 ≤ Nat.log2 n := (Nat.le_log2 hn0).2 (by omega)
    simp only
    generalize hs : Nat.log2 n - 52 = shift
    have hpow : 2 ^ shift = 2 * 2 ^ (shift - 1) := by
      rw [← pow_succ']
      congr 1
      omega
    have hhalf : 2 ^ (shift - 1) ≤ 64 := by
      calc 2 ^ (shift - 1) ≤ 2 ^ 6 := Nat.pow_le_pow_right (by norm_num) (by omega)
        _ = 64 := by norm_num
    have hdm := Nat.div_add_mod n (2 ^ shift)
    rw [Nat.mul_comm] at hdm
    split
    · rw [Nat.add_mul, Nat.one_mul]
      omega
    · rename_i hdown
      have hrem : n % 2 ^ shift ≤ 2 ^ (shift - 1) := by
        by_contra hgt
        exact hdown (Or.inl (by omega))
      omega

/-- The floor of the double product is a quotient of natural numbers. -/
theorem randomNumber_eq_div (r : Rand) :
    randomNumber r = ((roundToDouble (r.mant * maxNumber) / 2 ^ r.exp : ℕ) : ℤ) + 1 := by
  unfold randomNumber timesMaxNumber
  rw [Rat.floor_natCast_div_natCast]
  norm_cast

theorem randomNumber_ge (r : Rand) : 1 ≤ randomNumber r := by
  rw [randomNumber_eq_div]
  exact le_add_of_nonneg_left (Int.natCast_nonneg _)

/-- The double product of a double below 1 and 75 is below 75: the exact product is at
least `75 / 2 ^ exp` below, and rounding adds at most `64 / 2 ^ exp`. -/
theorem randomNumber_le (r : Rand) : randomNumber r ≤ 75 := by
  rw [randomNumber_eq_div]
  have hm := r.mant_lt
  have hone := r.lt_one
  have hpow53 : (2 : ℕ) ^ 53 = 9007199254740992 := by norm_num
  have hpow60 : (2 : ℕ) ^ 60 = 1152921504606846976 := by norm_num
  have hround := roundToDouble_le (r.mant * maxNumber) (by
    simp only [maxNumber]
    omega)
  simp only [maxNumber] at hround ⊢
  have hlt : roundToDouble (r.mant * 75) / 2 ^ r.exp < 75 := by
    rw [Nat.div_lt_iff_lt_mul (by positivity)]
    generalize 2 ^ r.exp = d at *
    omega
  have hcast : ((roundToDouble (r.mant * 75) / 2 ^ r.exp : ℕ) : ℤ) < 75 := by
    exact_mod_cast hlt
  linarith

/-- When the loop ends it ends with the number of the last random value it read, a
number that is not in the set; it has read at least one value. -/
theorem sampleLoop_some (drawn : List ℤ) (rnd : RandomSource) :
    ∀ (fuel i : ℕ) (v : ℤ) (j : ℕ), sampleLoop drawn rnd fuel i = some (v, j) →
      v ∉ drawn ∧ i < j ∧ v = randomNumber (rnd (j - 1)) := by
  intro fuel
  induction fuel with
  | zero => intro i v j h; simp [sampleLoop] at h
  | succ n ih =>
    intro i v j h
    rw [sampleLoop] at h
    split at h
    · obtain ⟨h₁, h₂, h₃⟩ := ih (i + 1) v j h
      exact ⟨h₁, by omega, h₃⟩
    · rename_i hmem
      simp only [Option.some.injEq, Prod.mk.injEq] at h
      obtain ⟨rfl, rfl⟩ := h
      exact ⟨hmem, by omega, by simp⟩

/-- The loop ends at the first random value whose number is not in the set: after `n`
rejected values and one accepted, `n + 1` iterations are enough. -/
theorem sampleLoop_first (drawn : List ℤ) (rnd : RandomSource) :
    ∀ (n i fuel : ℕ), (∀ m, m < n → randomNumber (rnd (i + m)) ∈ drawn) →
      randomNumber (rnd (i + n)) ∉ drawn → n < fuel →
      sampleLoop drawn rnd fuel i = some (randomNumber (rnd (i + n)), i + n + 1) := by
  intro n
  induction n with
  | zero =>
    intro i fuel _ hacc hfuel
    obtain ⟨f, rfl⟩ : ∃ f, fuel = f + 1 := ⟨fuel - 1, by omega⟩
    rw [sampleLoop]
    simp only [Nat.add_zero] at hacc ⊢
    rw [if_neg hacc]
  | succ n ih =>
    intro i fuel hrej hacc hfuel
    obtain ⟨f, rfl⟩ : ∃ f, fuel = f + 1 := ⟨fuel - 1, by omega⟩
    rw [sampleLoop]
    have h0 : randomNumber (rnd i) ∈ drawn := by simpa using hrej 0 (by omega)
    rw [if_pos h0]
    have := ih (i + 1) f (fun m hm => by
      have := hrej (m + 1) (by omega)
      rwa [show i + 1 + m = i + (m + 1) by omega]) (by
      rwa [show i + 1 + n = i + (n + 1) by omega]) (by omega)
    rw [this, show i + 1 + n = i + (n + 1) by omega]

/-- While every random value read stands for a drawn number the loop goes on. -/
theorem sampleLoop_none (drawn : List ℤ) (rnd : RandomSource) :
    ∀ (fuel i : ℕ), (∀ m, m < fuel → randomNumber (rnd (i + m)) ∈ drawn) →
      sampleLoop drawn rnd fuel i = none := by
  intro fuel
  induction fuel with
  | zero => intro i _; rfl
  | succ n ih =>
    intro i hrej
    rw [sampleLoop]
    have h0 : randomNumber (rnd i) ∈ drawn := by simpa using hrej 0 (by omega)
    rw [if_pos h0]
    exact ih (i + 1) (fun m hm => by
      have := hrej (m + 1) (by omega)
      rwa [show i + 1 + m = i + (m + 1) by omega])

/-! ## What each operation does to the state -/

/-- A tick leaves the three fields alone; of the animations it changes at most the
pending timer of its own. -/
theorem animate_some (s s' : BingoGame) (out : List Effect) (i : ℕ) (elapsed : ℚ)
    (rnd : RandomSource) (k fuel : ℕ) (h : animate s i elapsed rnd k fuel = some (s', out)) :
    s'.drawnNumbers = s.drawnNumbers ∧ s'.currentNumber = s.currentNumber ∧
    s'.isDrawing = s.isDrawing ∧
    ∃ sp, s.spins.get? i = some sp ∧ sp.settled = false ∧
      ((elapsed < duration ∧ s' = s) ∨
       (¬ elapsed < duration ∧
        s'.spins = s.spins.set i { targetNumber := sp.targetNumber, settled := true })) := by
  unfold animate at h
  split at h
  · exact absurd h (by simp)
  · rename_i sp hsp
    split at h
    · exact absurd h (by simp)
    · rename_i hset
      simp only at h
      split at h
      · rename_i hlt
        split at h
        · exact absurd h (by simp)
        · simp only [Option.some.injEq, Prod.mk.injEq] at h
          obtain ⟨rfl, _⟩ := h
          exact ⟨rfl, rfl, rfl, sp, hsp, by simpa using hset, Or.inl ⟨hlt, rfl⟩⟩
      · rename_i hge
        simp only [Option.some.injEq, Prod.mk.injEq] at h
        obtain ⟨rfl, _⟩ := h
        exact ⟨rfl, rfl, rfl, sp, hsp, by simpa using hset, Or.inr ⟨hge, rfl⟩⟩

/-- The three ways of `drawNumber`: ignored while drawing, refused when all numbers are
drawn, and accepted, with a target that the loop found. -/
theorem drawNumber_some (s s' : BingoGame) (out : List Effect) (elapsed : ℚ)
    (rnd : RandomSource) (fuel : ℕ) (h : drawNumber s elapsed rnd fuel = some (s', out)) :
    (s.isDrawing = true ∧ s' = s ∧ out = []) ∨
    (s.isDrawing = false ∧ maxNumber ≤ s.drawnNumbers.length ∧ s' = s ∧
      out = [Effect.alert Notice.allDrawn]) ∨
    (s.isDrawing = false ∧ s.drawnNumbers.length < maxNumber ∧
      ∃ t k b, sampleLoop s.drawnNumbers rnd fuel 0 = some (t, k) ∧
        s'.drawnNumbers = s.drawnNumbers ∧ s'.currentNumber = s.currentNumber ∧
        s'.isDrawing = true ∧
        s'.spins = s.spins ++ [{ targetNumber := t, settled := b }]) := by
  unfold drawNumber at h
  split at h
  · rename_i hd
    simp only [Option.some.injEq, Prod.mk.injEq] at h
    exact Or.inl ⟨hd, h.1.symm, h.2.symm⟩
  · rename_i hd
    split at h
    · rename_i hfull
      simp only [Option.some.injEq, Prod.mk.injEq] at h
      exact Or.inr (Or.inl ⟨by simpa using hd, hfull, h.1.symm, h.2.symm⟩)
    · rename_i hfull
      split at h
      · exact absurd h (by simp)
      · rename_i t k hloop
        split at h
        · exact absurd h (by simp)
        · rename_i s₁ out₁ hstart
          simp only [Option.some.injEq, Prod.mk.injEq] at h
          obtain ⟨rfl, _⟩ := h
          unfold startRouletteAnimation at hstart
          split at hstart
          · exact absurd hstart (by simp)
          · rename_i s₂ out₂ hanim
            simp only [Option.some.injEq, Prod.mk.injEq] at hstart
            obtain ⟨rfl, _⟩ := hstart
            obtain ⟨h₁, h₂, h₃, sp, hsp, hset, hcase⟩ := animate_some _ _ _ _ _ _ _ _ hanim
            simp only [List.get?_eq_getElem?, List.getElem?_concat_length,
              Option.some.injEq] at hsp
            subst hsp
            refine Or.inr (Or.inr ⟨by simpa using hd, by omega, t, k, ?_⟩)
            rcases hcase with ⟨_, rfl⟩ | ⟨_, hs⟩
            · exact ⟨false, hloop, rfl, rfl, rfl, rfl⟩
            · refine ⟨true, hloop, h₁, h₂, h₃, ?_⟩
              rw [hs]
              simp

/-- The callback commits the target of its animation and ends the draw. -/
theorem completionCallback_some (s s' : BingoGame) (out : List Effect) (i : ℕ)
    (h : completionCallback s i = some (s', out)) :
    ∃ sp, s.spins.get? i = some sp ∧ sp.settled = true ∧
      s'.drawnNumbers = setAdd s.drawnNumbers sp.targetNumber ∧
      s'.currentNumber = some sp.targetNumber ∧ s'.isDrawing = false ∧
      s'.spins = s.spins.eraseIdx i := by
  unfold completionCallback at h
  split at h
  · exact absurd h (by simp)
  · rename_i sp hsp
    split at h
    · rename_i hset
      simp only [Option.some.injEq, Prod.mk.injEq] at h
      obtain ⟨rfl, _⟩ := h
      exact ⟨sp, hsp, hset, rfl, rfl, rfl, rfl⟩
    · exact absurd h (by simp)

/-- `resetGame` either leaves the state alone or empties the pool and `currentNumber`;
it never touches `isDrawing` or the running animations. -/
theorem resetGame_state (s : BingoGame) (answer : Bool) :
    (resetGame s answer).1 = s ∨
    (resetGame s answer).1 = { s with drawnNumbers := [], currentNumber := none } := by
  unfold resetGame
  split
  · split
    · exact Or.inl rfl
    · exact Or.inr rfl
  · exact Or.inr rfl

/-! ## The invariant -/

theorem inv_new : Inv BingoGame.new := by
  simp [Inv, BingoGame.new]

/-- A list of at most one animation with one at index `i` is that animation alone. -/
theorem spins_singleton (spins : List Spin) (i : ℕ) (sp : Spin) (hlen : spins.length ≤ 1)
    (h : spins.get? i = some sp) : i = 0 ∧ spins = [sp] := by
  match spins, hlen, h with
  | [], _, h => simp at h
  | [a], _, h =>
    cases i with
    | zero =>
      simp only [List.get?_cons_zero, Option.some.injEq] at h
      subst h
      exact ⟨rfl, rfl⟩
    | succ n => simp at h
  | _ :: _ :: _, hlen, _ => simp at hlen

theorem inv_draw (s s' : BingoGame) (out : List Effect) (elapsed : ℚ) (rnd : RandomSource)
    (fuel : ℕ) (hinv : Inv s) (h : drawNumber s elapsed rnd fuel = some (s', out)) :
    Inv s' := by
  rcases drawNumber_some s s' out elapsed rnd fuel h with
    ⟨_, rfl, _⟩ | ⟨_, _, rfl, _⟩ | ⟨hd, _, t, k, b, hloop, h₁, _, h₃, h₄⟩
  · exact hinv
  · exact hinv
  · obtain ⟨hnd, hrange, _, hidle, _⟩ := hinv
    obtain ⟨hnot, _, hval⟩ := sampleLoop_some _ _ _ _ _ _ hloop
    have hnil := hidle hd
    rw [hnil] at h₄
    refine ⟨by rw [h₁]; exact hnd, by rw [h₁]; exact hrange, by rw [h₄]; simp, ?_, ?_⟩
    · intro hfalse
      rw [h₃] at hfalse
      exact absurd hfalse (by simp)
    · intro sp hsp
      rw [h₄] at hsp
      simp only [List.nil_append, List.mem_singleton] at hsp
      subst hsp
      rw [h₁]
      exact ⟨hnot, by rw [hval]; exact randomNumber_ge _, by rw [hval]; exact randomNumber_le _⟩

theorem inv_tick (s s' : BingoGame) (out : List Effect) (i : ℕ) (elapsed : ℚ)
    (rnd : RandomSource) (k fuel : ℕ) (hinv : Inv s)
    (h : animate s i elapsed rnd k fuel = some (s', out)) : Inv s' := by
  obtain ⟨h₁, _, h₃, sp, hsp, _, hcase⟩ := animate_some _ _ _ _ _ _ _ _ h
  rcases hcase with ⟨_, rfl⟩ | ⟨_, hs⟩
  · exact hinv
  · obtain ⟨hnd, hrange, hlen, hidle, htarget⟩ := hinv
    obtain ⟨rfl, hone⟩ := spins_singleton _ _ _ hlen hsp
    rw [hone] at hs
    simp only [List.set_cons_zero] at hs
    refine ⟨by rw [h₁]; exact hnd, by rw [h₁]; exact hrange, by rw [hs]; simp, ?_, ?_⟩
    · intro hfalse
      rw [h₃] at hfalse
      have := hidle hfalse
      rw [hone] at this
      exact absurd this (by simp)
    · intro sp' hsp'
      rw [hs] at hsp'
      simp only [List.mem_singleton] at hsp'
      subst hsp'
      rw [h₁]
      exact htarget sp (by rw [hone]; simp)

theorem inv_complete (s s' : BingoGame) (out : List Effect) (i : ℕ) (hinv : Inv s)
    (h : completionCallback s i = some (s', out)) : Inv s' := by
  obtain ⟨sp, hsp, _, h₁, _, h₃, h₄⟩ := completionCallback_some _ _ _ _ h
  obtain ⟨hnd, hrange, hlen, _, htarget⟩ := hinv
  obtain ⟨rfl, hone⟩ := spins_singleton _ _ _ hlen hsp
  obtain ⟨hnot, hge, hle⟩ := htarget sp (by rw [hone]; simp)
  rw [hone] at h₄
  simp only [List.eraseIdx_cons_zero] at h₄
  have hadd : s'.drawnNumbers = s.drawnNumbers ++ [sp.targetNumber] := by
    rw [h₁, setAdd, if_neg hnot]
  refine ⟨?_, ?_, by rw [h₄]; simp, fun _ => h₄, ?_⟩
  · rw [hadd]
    refine List.Nodup.append hnd (List.nodup_singleton _) ?_
    intro a ha hb
    rw [List.mem_singleton] at hb
    subst hb
    exact hnot ha
  · intro v hv
    rw [hadd] at hv
    simp only [List.mem_append, List.mem_singleton] at hv
    rcases hv with hv | rfl
    · exact hrange v hv
    · exact ⟨hge, hle⟩
  · intro sp' hsp'
    rw [h₄] at hsp'
    simp at hsp'

theorem inv_reset (s : BingoGame) (answer : Bool) (hinv : Inv s) :
    Inv (resetGame s answer).1 := by
  rcases resetGame_state s answer with h | h
  · rw [h]; exact hinv
  · rw [h]
    obtain ⟨_, _, hlen, hidle, htarget⟩ := hinv
    exact ⟨by simp, by simp, hlen, hidle, fun sp hsp => ⟨by simp, (htarget sp hsp).2⟩⟩

theorem inv_step (s s' : BingoGame) (hinv : Inv s) (h : Step s s') : Inv s' := by
  cases h
  case draw h => exact inv_draw _ _ _ _ _ _ hinv h
  case tick h => exact inv_tick _ _ _ _ _ _ _ _ hinv h
  case complete h => exact inv_complete _ _ _ _ hinv h
  case reset => exact inv_reset _ _ hinv

theorem inv_reachable (s : BingoGame) (h : Reachable s) : Inv s := by
  induction h with
  | init => exact inv_new
  | step s s' _ hstep ih => exact inv_step s s' ih hstep

/-- Distinct integers of `[1, 75]` are at most 75. -/
theorem length_le_of_range (l : List ℤ) (hnd : l.Nodup) (hrange : ∀ v ∈ l, 1 ≤ v ∧ v ≤ 75) :
    l.length ≤ 75 := by
  have hsub : l.toFinset ⊆ Finset.Icc (1 : ℤ) 75 := by
    intro v hv
    rw [List.mem_toFinset] at hv
    rw [Finset.mem_Icc]
    exact hrange v hv
  have hcard := Finset.card_le_card hsub
  rw [List.toFinset_card_of_nodup hnd, Int.card_Icc] at hcard
  simpa using hcard

/-! ## Running the operations -/

/-- An accepted request, when the first random value stands for an undrawn number and
so does the second (the decoy of the first tick), and the first tick is a spinning one. -/
theorem drawNumber_accept (s : BingoGame) (elapsed : ℚ) (rnd : RandomSource) (fuel : ℕ)
    (hd : s.isDrawing = false) (hlen : s.drawnNumbers.length < maxNumber)
    (h₀ : randomNumber (rnd 0) ∉ s.drawnNumbers) (h₁ : randomNumber (rnd 1) ∉ s.drawnNumbers)
    (he : elapsed < duration) :
    drawNumber s elapsed rnd (fuel + 1) =
      some ({ s with isDrawing := true,
                     spins := s.spins ++ [{ targetNumber := randomNumber (rnd 0),
                                            settled := false }] },
            [Effect.playButtonClick, Effect.drawButtonDisabled true, Effect.playDrumRoll,
             Effect.displaySpinning true,
             Effect.displayText (randomNumber (rnd 1)),
             Effect.displayHue ((rnd 2).val * 360),
             Effect.playTickSound (400 + (rnd 3).val * 800),
             Effect.setTimeoutAnimate (speedOf (elapsed / duration))]) := by
  have hlen' : ¬ s.drawnNumbers.length ≥ maxNumber := by omega
  simp [drawNumber, startRouletteAnimation, animate, sampleLoop, hd, hlen', h₀, h₁, he]

/-- A tick at `elapsed ≥ duration` shows the target and starts the 500 ms timer; it reads
no random value. -/
theorem animate_settle (s : BingoGame) (i : ℕ) (sp : Spin) (elapsed : ℚ) (rnd : RandomSource)
    (k fuel : ℕ) (hsp : s.spins.get? i = some sp) (hset : sp.settled = false)
    (he : ¬ elapsed < duration) :
    animate s i elapsed rnd k fuel =
      some ({ s with spins := s.spins.set i { targetNumber := sp.targetNumber,
                                               settled := true } },
            [Effect.displaySpinning false, Effect.displayText sp.targetNumber,
             Effect.displayGreen, Effect.displayFinal true, Effect.setTimeoutCallback 500]) := by
  unfold animate
  rw [hsp]
  simp [hset, he]

/-- A tick at `elapsed < duration` shows the decoy its loop found and schedules the next
tick `speed` milliseconds later. -/
theorem animate_spin (s : BingoGame) (i : ℕ) (sp : Spin) (elapsed : ℚ) (rnd : RandomSource)
    (k fuel : ℕ) (decoy : ℤ) (j : ℕ) (hsp : s.spins.get? i = some sp)
    (hset : sp.settled = false) (he : elapsed < duration)
    (hloop : sampleLoop s.drawnNumbers rnd fuel k = some (decoy, j)) :
    animate s i elapsed rnd k fuel =
      some (s, [Effect.displayText decoy, Effect.displayHue ((rnd j).val * 360),
                Effect.playTickSound (400 + (rnd (j + 1)).val * 800),
                Effect.setTimeoutAnimate (speedOf (elapsed / duration))]) := by
  unfold animate
  rw [hsp]
  simp [hset, he, hloop]

theorem randomNumber_ofIndex (n : ℕ) : randomNumber (Rand.ofIndex n) = ((n % 75 : ℕ) : ℤ) + 1 := by
  have h := Nat.mod_lt n (show 75 > 0 by norm_num)
  have hpow53 : (2 : ℕ) ^ 53 = 9007199254740992 := by norm_num
  have hpow7 : (2 : ℕ) ^ 7 = 128 := by norm_num
  have hexact : roundToDouble ((128 * (n % 75) + 74) / 75 * 75) =
      (128 * (n % 75) + 74) / 75 * 75 := by
    unfold roundToDouble
    rw [if_pos (by omega)]
  have hdiv : roundToDouble ((Rand.ofIndex n).mant * maxNumber) / 2 ^ (Rand.ofIndex n).exp
      = n % 75 := by
    simp only [Rand.ofIndex, maxNumber]
    rw [hexact, hpow7]
    omega
  rw [randomNumber_eq_div, hdiv]

theorem stateAfter_isDrawing (n : ℕ) : (stateAfter n).isDrawing = false := by
  cases n <;> rfl

theorem stateAfter_spins (n : ℕ) : (stateAfter n).spins = [] := by
  cases n <;> rfl

theorem stateAfter_length (n : ℕ) : (stateAfter n).drawnNumbers.length = n := by
  induction n with
  | zero => rfl
  | succ n ih => simp [stateAfter, ih]

theorem stateAfter_mem (n : ℕ) (v : ℤ) (h : v ∈ (stateAfter n).drawnNumbers) : v ≤ n := by
  induction n with
  | zero => simp [stateAfter, BingoGame.new] at h
  | succ n ih =>
    simp only [stateAfter, List.mem_append, List.mem_singleton] at h
    push_cast
    rcases h with h | h
    · have := ih h
      omega
    · omega

/-- The callback in a state a new game gets to: the one running animation has settled,
its target is an undrawn number of `[1, 75]`, and the callback commits it. -/
theorem completionCallback_reachable (s s' : BingoGame) (out : List Effect) (i : ℕ)
    (hr : Reachable s) (h : completionCallback s i = some (s', out)) :
    ∃ t : ℤ, i = 0 ∧ s.spins = [{ targetNumber := t, settled := true }] ∧
      t ∉ s.drawnNumbers ∧ 1 ≤ t ∧ t ≤ 75 ∧
      s'.drawnNumbers = s.drawnNumbers ++ [t] ∧ s'.currentNumber = some t ∧
      s'.isDrawing = false ∧ s'.spins = [] := by
  obtain ⟨sp, hsp, hset, h₁, h₂, h₃, h₄⟩ := completionCallback_some _ _ _ _ h
  obtain ⟨_, _, hlen, _, htarget⟩ := inv_reachable s hr
  obtain ⟨rfl, hone⟩ := spins_singleton _ _ _ hlen hsp
  obtain ⟨hnot, hge, hle⟩ := htarget sp (by rw [hone]; simp)
  refine ⟨sp.targetNumber, rfl, ?_, hnot, hge, hle, ?_, h₂, h₃, ?_⟩
  · rw [hone]
    cases sp
    simp only at hset
    subst hset
    rfl
  · rw [h₁, setAdd, if_neg hnot]
  · rw [h₄, hone]
    rfl

theorem ticks_reachable (i : ℕ) (s s' : BingoGame) (h : Ticks i s s') (hr : Reachable s) :
    Reachable s' := by
  induction h with
  | done s => exact hr
  | tick s s₁ s₂ out elapsed rnd k fuel hstep _ ih =>
    exact ih (Reachable.step s s₁ hr (Step.tick s s₁ out i elapsed rnd k fuel hstep))

theorem ticks_drawnNumbers (i : ℕ) (s s' : BingoGame) (h : Ticks i s s') :
    s'.drawnNumbers = s.drawnNumbers := by
  induction h with
  | done s => rfl
  | tick s s₁ s₂ out elapsed rnd k fuel hstep _ ih =>
    rw [ih, (animate_some _ _ _ _ _ _ _ _ hstep).1]

/-- A successful draw from a state a new game gets to ends in such a state, with one
more drawn number and no draw in progress. -/
theorem successfulDraw_grows (s s' : BingoGame) (hr : Reachable s) (h : SuccessfulDraw s s') :
    Reachable s' ∧ s'.drawnNumbers.length = s.drawnNumbers.length + 1 ∧
    s'.isDrawing = false := by
  obtain ⟨hd, hlen, elapsed, rnd, fuel, s₁, s₂, out₁, out₂, hdraw, hticks, hcb⟩ := h
  have hr₁ : Reachable s₁ := Reachable.step s s₁ hr (Step.draw s s₁ out₁ elapsed rnd fuel hdraw)
  have hr₂ : Reachable s₂ := ticks_reachable _ _ _ hticks hr₁
  have hr' : Reachable s' :=
    Reachable.step s₂ s' hr₂ (Step.complete s₂ s' out₂ _ hcb)
  obtain ⟨t, _, _, _, _, _, hadd, _, hidle, _⟩ := completionCallback_reachable _ _ _ _ hr₂ hcb
  have h₂ : s₂.drawnNumbers = s₁.drawnNumbers := ticks_drawnNumbers _ _ _ hticks
  have h₁ : s₁.drawnNumbers = s.drawnNumbers := by
    rcases drawNumber_some _ _ _ _ _ _ hdraw with ⟨hd', _, _⟩ | ⟨_, hfull, _, _⟩ |
      ⟨_, _, _, _, _, _, h, _⟩
    · rw [hd] at hd'
      exact absurd hd' (by simp)
    · omega
    · exact h
  refine ⟨hr', ?_, hidle⟩
  rw [hadd, h₂, h₁]
  simp

theorem successfulDraws_grow (n : ℕ) (s s' : BingoGame) (h : SuccessfulDraws n s s')
    (hr : Reachable s) :
    Reachable s' ∧ s'.drawnNumbers.length = s.drawnNumbers.length + n ∧
    (0 < n → s'.isDrawing = false) := by
  induction h with
  | zero s => exact ⟨hr, rfl, fun h => absurd h (by omega)⟩
  | succ n s s₁ s₂ _ hdraw ih =>
    obtain ⟨hr₁, hlen₁, _⟩ := ih hr
    obtain ⟨hr₂, hlen₂, hidle⟩ := successfulDraw_grows s₁ s₂ hr₁ hdraw
    exact ⟨hr₂, by omega, fun _ => hidle⟩

/-- The draw of the number `n + 1` after the numbers `1, ..., n`: the random source
always returns `Rand.ofIndex n`, the first tick runs at `elapsed = 0` and the second at
`elapsed = 3000`. -/
theorem successfulDraw_stateAfter (n : ℕ) (hn : n < 75) :
    SuccessfulDraw (stateAfter n) (stateAfter (n + 1)) := by
  have hnum : ∀ i, randomNumber (constSource n i) = (n : ℤ) + 1 := by
    intro i
    simp only [constSource]
    rw [randomNumber_ofIndex, Nat.mod_eq_of_lt hn]
  have hnot : (n : ℤ) + 1 ∉ (stateAfter n).drawnNumbers := by
    intro hmem
    have := stateAfter_mem n _ hmem
    omega
  have hlen : (stateAfter n).drawnNumbers.length < maxNumber := by
    rw [stateAfter_length]
    exact hn
  have hdraw := drawNumber_accept (stateAfter n) 0 (constSource n) 0 (stateAfter_isDrawing n)
    hlen (by rw [hnum]; exact hnot) (by rw [hnum]; exact hnot) (by norm_num [duration])
  rw [hnum, stateAfter_spins] at hdraw
  have hticks : Ticks 0
      { drawnNumbers := (stateAfter n).drawnNumbers,
        currentNumber := (stateAfter n).currentNumber,
        isDrawing := true,
        spins := [] ++ [{ targetNumber := (n : ℤ) + 1, settled := false }] }
      { drawnNumbers := (stateAfter n).drawnNumbers,
        currentNumber := (stateAfter n).currentNumber,
        isDrawing := true,
        spins := [{ targetNumber := (n : ℤ) + 1, settled := true }] } := by
    exact Ticks.tick _ _ _ _ 3000 (constSource n) 0 0
      (animate_settle _ 0 { targetNumber := (n : ℤ) + 1, settled := false } 3000 _ 0 0
        rfl rfl (by norm_num [duration])) (Ticks.done _)
  have hcb : ∃ out, completionCallback
      { drawnNumbers := (stateAfter n).drawnNumbers,
        currentNumber := (stateAfter n).currentNumber,
        isDrawing := true,
        spins := [{ targetNumber := (n : ℤ) + 1, settled := true }] } 0
      = some (stateAfter (n + 1), out) := by
    simp [completionCallback, setAdd, hnot, stateAfter]
  obtain ⟨out, hcb⟩ := hcb
  unfold SuccessfulDraw
  rw [stateAfter_spins]
  exact ⟨stateAfter_isDrawing n, hlen, 0, constSource n, 1, _, _, _, _, hdraw, hticks, hcb⟩

theorem successfulDraws_stateAfter (n : ℕ) (hn : n ≤ 75) :
    SuccessfulDraws n BingoGame.new (stateAfter n) := by
  induction n with
  | zero => exact SuccessfulDraws.zero _
  | succ n ih =>
    exact SuccessfulDraws.succ n _ _ _ (ih (by omega)) (successfulDraw_stateAfter n (by omega))

/-- An accepted request is the click, the target loop and the first tick of the new
animation, in this order. -/
theorem drawNumber_first_tick (s s' : BingoGame) (out : List Effect) (elapsed : ℚ)
    (rnd : RandomSource) (fuel : ℕ) (hd : s.isDrawing = false)
    (hlen : s.drawnNumbers.length < maxNumber)
    (h : drawNumber s elapsed rnd fuel = some (s', out)) :
    ∃ (t : ℤ) (k : ℕ) (out' : List Effect),
      sampleLoop s.drawnNumbers rnd fuel 0 = some (t, k) ∧
      animate { drawnNumbers := s.drawnNumbers, currentNumber := s.currentNumber,
                isDrawing := true,
                spins := s.spins ++ [{ targetNumber := t, settled := false }] }
        s.spins.length elapsed rnd k fuel = some (s', out') ∧
      out = Effect.playButtonClick :: Effect.drawButtonDisabled true :: Effect.playDrumRoll ::
              Effect.displaySpinning true :: out' := by
  have hlen' : ¬ s.drawnNumbers.length ≥ maxNumber := by omega
  unfold drawNumber at h
  rw [if_neg (by simp [hd]), if_neg hlen'] at h
  split at h
  · exact absurd h (by simp)
  · rename_i t k hloop
    split at h
    · exact absurd h (by simp)
    · rename_i s₁ out₁ hstart
      simp only [Option.some.injEq, Prod.mk.injEq] at h
      obtain ⟨rfl, rfl⟩ := h
      unfold startRouletteAnimation at hstart
      split at hstart
      · exact absurd hstart (by simp)
      · rename_i s₂ out₂ hanim
        simp only [Option.some.injEq, Prod.mk.injEq] at hstart
        obtain ⟨rfl, rfl⟩ := hstart
        exact ⟨t, k, out₂, hloop, hanim, rfl⟩

/-- The number a spinning tick shows is the one its loop found: an undrawn number of
`[1, 75]`; and it shows no other number. -/
theorem animate_decoy (s s' : BingoGame) (out : List Effect) (i : ℕ) (elapsed : ℚ)
    (rnd : RandomSource) (k fuel : ℕ) (h : animate s i elapsed rnd k fuel = some (s', out))
    (he : elapsed < duration) :
    ∃ (d : ℤ) (j : ℕ), sampleLoop s.drawnNumbers rnd fuel k = some (d, j) ∧
      (∀ n, Effect.displayText n ∈ out ↔ n = d) := by
  unfold animate at h
  split at h
  · exact absurd h (by simp)
  · split at h
    · exact absurd h (by simp)
    · simp only [if_pos he] at h
      split at h
      · exact absurd h (by simp)
      · rename_i d j hloop
        simp only [Option.some.injEq, Prod.mk.injEq] at h
        obtain ⟨_, rfl⟩ := h
        exact ⟨d, j, hloop, fun n => by simp⟩

/-! ## The claims -/

/-- C1: in every state that a new game gets to by draw requests, animation ticks,
completion callbacks and resets, the drawn numbers are pairwise distinct integers of
`[1, maxNumber]`, so there are at most 75 of them. -/
theorem drawnNumbers_distinct_in_range (s : BingoGame) (h : Reachable s) :
    s.drawnNumbers.Nodup ∧ (∀ v ∈ s.drawnNumbers, 1 ≤ v ∧ v ≤ (maxNumber : ℤ)) ∧
    s.drawnNumbers.length ≤ 75 := by
  obtain ⟨hnd, hrange, _⟩ := inv_reachable s h
  exact ⟨hnd, fun v hv => by simpa [maxNumber] using hrange v hv,
    length_le_of_range _ hnd hrange⟩

/-- The state after the draws of 1 and 2 is one a new game gets to, and C1 holds of it. -/
theorem drawnNumbers_distinct_in_range_witness :
    Reachable (stateAfter 2) ∧ (stateAfter 2).drawnNumbers = [1, 2] ∧
    ((stateAfter 2).drawnNumbers.Nodup ∧
      (∀ v ∈ (stateAfter 2).drawnNumbers, 1 ≤ v ∧ v ≤ (maxNumber : ℤ)) ∧
      (stateAfter 2).drawnNumbers.length ≤ 75) :=
  ⟨(successfulDraws_grow 2 _ _ (successfulDraws_stateAfter 2 (by norm_num)) Reachable.init).1,
   by simp [stateAfter, BingoGame.new],
   drawnNumbers_distinct_in_range (stateAfter 2)
     (successfulDraws_grow 2 _ _ (successfulDraws_stateAfter 2 (by norm_num)) Reachable.init).1⟩

/-- C2: `maxNumber` successful draws in a row from a reachable state with an empty pool
leave `maxNumber` drawn numbers (and no draw in progress); and in every state with at
least `maxNumber` drawn numbers and `isDrawing = false`, `drawNumber` returns for every
clock, random source and fuel, with the exhaustion notice as its only effect and the
state (pool, `currentNumber`, `isDrawing`, running animations) unchanged. -/
theorem exhausted_after_maxNumber_draws :
    (∀ s₀ s : BingoGame, Reachable s₀ → s₀.drawnNumbers = [] →
      SuccessfulDraws maxNumber s₀ s →
      s.drawnNumbers.length = maxNumber ∧ s.isDrawing = false) ∧
    (∀ (s : BingoGame) (elapsed : ℚ) (rnd : RandomSource) (fuel : ℕ),
      s.isDrawing = false → maxNumber ≤ s.drawnNumbers.length →
      drawNumber s elapsed rnd fuel = some (s, [Effect.alert Notice.allDrawn])) := by
  constructor
  · intro s₀ s hr hempty hdraws
    obtain ⟨_, hlen, hidle⟩ := successfulDraws_grow _ _ _ hdraws hr
    rw [hempty] at hlen
    exact ⟨by simpa using hlen, hidle (by norm_num [maxNumber])⟩
  · intro s elapsed rnd fuel hd hfull
    unfold drawNumber
    rw [if_neg (by simp [hd]), if_pos hfull]

/-- The 75 draws of 1, ..., 75 from a new game are successful draws; after them the
pool holds 75 numbers and a further request only raises the notice. -/
theorem exhausted_after_maxNumber_draws_witness :
    SuccessfulDraws maxNumber BingoGame.new (stateAfter 75) ∧
    ((stateAfter 75).drawnNumbers.length = maxNumber ∧ (stateAfter 75).isDrawing = false) ∧
    drawNumber (stateAfter 75) 0 (constSource 0) 0 =
      some (stateAfter 75, [Effect.alert Notice.allDrawn]) :=
  ⟨successfulDraws_stateAfter 75 (le_refl _),
   exhausted_after_maxNumber_draws.1 BingoGame.new (stateAfter 75) Reachable.init rfl
     (successfulDraws_stateAfter 75 (le_refl _)),
   exhausted_after_maxNumber_draws.2 (stateAfter 75) 0 (constSource 0) 0
     (stateAfter_isDrawing 75) (by rw [stateAfter_length]; exact le_refl _)⟩

/-- C3: whenever the rejection loop stops, the number it returns is
`floor(r * maxNumber) + 1` for the last random value `r` it read, where
`r * maxNumber` is the product the code computes, a double (`timesMaxNumber`); it is an
integer of `[1, maxNumber]` that is not in the drawn set the loop was run on. So is the
target that an accepted `drawNumber` gives its animation, and so is the one number
that a spinning tick (`elapsed < duration`) displays, that of the first tick inside
`drawNumber` included. -/
theorem sampled_number_undrawn_in_range :
    (∀ (drawn : List ℤ) (rnd : RandomSource) (fuel i : ℕ) (v : ℤ) (j : ℕ),
      sampleLoop drawn rnd fuel i = some (v, j) →
      1 ≤ v ∧ v ≤ (maxNumber : ℤ) ∧ v ∉ drawn ∧ i < j ∧
      v = ⌊timesMaxNumber (rnd (j - 1))⌋ + 1) ∧
    (∀ (s s' : BingoGame) (out : List Effect) (elapsed : ℚ) (rnd : RandomSource) (fuel : ℕ),
      s.isDrawing = false → s.drawnNumbers.length < maxNumber →
      drawNumber s elapsed rnd fuel = some (s', out) →
      (∃ (t : ℤ) (b : Bool), s'.spins = s.spins ++ [{ targetNumber := t, settled := b }] ∧
        1 ≤ t ∧ t ≤ (maxNumber : ℤ) ∧ t ∉ s.drawnNumbers) ∧
      (elapsed < duration → ∃ d : ℤ, (∀ n, Effect.displayText n ∈ out ↔ n = d) ∧
        1 ≤ d ∧ d ≤ (maxNumber : ℤ) ∧ d ∉ s.drawnNumbers)) ∧
    (∀ (s s' : BingoGame) (out : List Effect) (i : ℕ) (elapsed : ℚ) (rnd : RandomSource)
      (k fuel : ℕ),
      animate s i elapsed rnd k fuel = some (s', out) → elapsed < duration →
      ∃ d : ℤ, (∀ n, Effect.displayText n ∈ out ↔ n = d) ∧
        1 ≤ d ∧ d ≤ (maxNumber : ℤ) ∧ d ∉ s.drawnNumbers) := by
  have hloop : ∀ (drawn : List ℤ) (rnd : RandomSource) (fuel i : ℕ) (v : ℤ) (j : ℕ),
      sampleLoop drawn rnd fuel i = some (v, j) →
      1 ≤ v ∧ v ≤ (maxNumber : ℤ) ∧ v ∉ drawn ∧ i < j ∧
      v = ⌊timesMaxNumber (rnd (j - 1))⌋ + 1 := by
    intro drawn rnd fuel i v j h
    obtain ⟨hnot, hlt, hval⟩ := sampleLoop_some _ _ _ _ _ _ h
    refine ⟨by rw [hval]; exact randomNumber_ge _, ?_, hnot, hlt, hval⟩
    rw [hval]
    simpa [maxNumber] using randomNumber_le (rnd (j - 1))
  have htick : ∀ (s s' : BingoGame) (out : List Effect) (i : ℕ) (elapsed : ℚ)
      (rnd : RandomSource) (k fuel : ℕ),
      animate s i elapsed rnd k fuel = some (s', out) → elapsed < duration →
      ∃ d : ℤ, (∀ n, Effect.displayText n ∈ out ↔ n = d) ∧
        1 ≤ d ∧ d ≤ (maxNumber : ℤ) ∧ d ∉ s.drawnNumbers := by
    intro s s' out i elapsed rnd k fuel h he
    obtain ⟨d, j, hd, hshow⟩ := animate_decoy _ _ _ _ _ _ _ _ h he
    obtain ⟨h₁, h₂, h₃, _, _⟩ := hloop _ _ _ _ _ _ hd
    exact ⟨d, hshow, h₁, h₂, h₃⟩
  refine ⟨hloop, ?_, htick⟩
  intro s s' out elapsed rnd fuel hd hlen h
  obtain ⟨t, k, out', hsample, hanim, rfl⟩ := drawNumber_first_tick _ _ _ _ _ _ hd hlen h
  obtain ⟨h₁, h₂, h₃, _, _⟩ := hloop _ _ _ _ _ _ hsample
  constructor
  · obtain ⟨_, _, _, sp, hsp, _, hcase⟩ := animate_some _ _ _ _ _ _ _ _ hanim
    simp only [List.get?_eq_getElem?, List.getElem?_concat_length, Option.some.injEq] at hsp
    subst hsp
    rcases hcase with ⟨_, rfl⟩ | ⟨_, hs⟩
    · exact ⟨t, false, rfl, h₁, h₂, h₃⟩
    · refine ⟨t, true, ?_, h₁, h₂, h₃⟩
      rw [hs]
      simp
  · intro he
    obtain ⟨d, hshow, hd₁, hd₂, hd₃⟩ := htick _ _ _ _ _ _ _ _ hanim he
    exact ⟨d, fun n => by simpa using hshow n, hd₁, hd₂, hd₃⟩

/-- The double `0.24 * 75`: the exact product has 60 bits and is rounded up to
`18 * 2 ^ 55`. -/
theorem roundToDouble_near024 : roundToDouble (8646911284551352 * 75) = 18 * 2 ^ 55 := by
  have hlog : Nat.log2 648518346341351400 = 59 := by
    have h₁ : 59 ≤ Nat.log2 648518346341351400 := (Nat.le_log2 (by norm_num)).2 (by norm_num)
    have h₂ : Nat.log2 648518346341351400 < 60 := (Nat.log2_lt (by norm_num)).2 (by norm_num)
    omega
  norm_num [roundToDouble, hlog]

theorem near024_mant_times : Rand.near024.mant * maxNumber = 8646911284551352 * 75 := rfl

theorem near024_exp : Rand.near024.exp = 55 := rfl

/-- In doubles `0.24 * 75` is `18`, although `0.24` is a double below `18 / 75`. -/
theorem timesMaxNumber_near024 : timesMaxNumber Rand.near024 = 18 := by
  unfold timesMaxNumber
  rw [near024_mant_times, near024_exp, roundToDouble_near024]
  push_cast
  norm_num

theorem randomNumber_near024 : randomNumber Rand.near024 = 19 := by
  unfold randomNumber
  rw [timesMaxNumber_near024]
  norm_num

theorem near024_val_lt : Rand.near024.val * 75 < 18 := by
  norm_num [Rand.val, Rand.near024]

/-- Two runs of the loop. With 1 and 2 drawn and the random values `Rand.ofIndex 0`,
`Rand.ofIndex 1`, ... (the numbers 1, 2, 3, ...) it rejects two values and returns 3.
With 18 drawn and the random value `0.24` it returns 19 at once: the exact product
`0.24 * 75` is below 18, the double product is 18. -/
theorem sampled_number_undrawn_in_range_witness :
    sampleLoop [1, 2] Rand.ofIndex 5 0 = some (3, 3) ∧
    (1 ≤ (3 : ℤ) ∧ (3 : ℤ) ≤ (maxNumber : ℤ) ∧ (3 : ℤ) ∉ [(1 : ℤ), 2] ∧ 0 < 3 ∧
      (3 : ℤ) = ⌊timesMaxNumber (Rand.ofIndex (3 - 1))⌋ + 1) ∧
    Rand.near024.val * 75 < 18 ∧ timesMaxNumber Rand.near024 = 18 ∧
    sampleLoop [18] (fun _ => Rand.near024) 1 0 = some (19, 1) ∧
    (1 ≤ (19 : ℤ) ∧ (19 : ℤ) ≤ (maxNumber : ℤ) ∧ (19 : ℤ) ∉ [(18 : ℤ)] ∧ 0 < 1 ∧
      (19 : ℤ) = ⌊timesMaxNumber ((fun _ => Rand.near024) (1 - 1))⌋ + 1) :=
  have h : sampleLoop [1, 2] Rand.ofIndex 5 0 = some (3, 3) := by
    simp [sampleLoop, randomNumber_ofIndex]
  have h' : sampleLoop [18] (fun _ => Rand.near024) 1 0 = some (19, 1) := by
    simp [sampleLoop, randomNumber_near024]
  ⟨h, sampled_number_undrawn_in_range.1 [1, 2] Rand.ofIndex 5 0 3 3 h,
   near024_val_lt, timesMaxNumber_near024, h',
   sampled_number_undrawn_in_range.1 [18] (fun _ => Rand.near024) 1 0 19 1 h'⟩

/-- While fewer than 75 numbers are drawn, some number of `[1, 75]` is undrawn. -/
theorem exists_undrawn (drawn : List ℤ) (hlen : drawn.length < 75) :
    ∃ v : ℤ, 1 ≤ v ∧ v ≤ 75 ∧ v ∉ drawn := by
  by_contra hall
  have hsub : Finset.Icc (1 : ℤ) 75 ⊆ drawn.toFinset := by
    intro v hv
    rw [Finset.mem_Icc] at hv
    rw [List.mem_toFinset]
    by_contra hnot
    exact hall ⟨v, hv.1, hv.2, hnot⟩
  have hcard := Finset.card_le_card hsub
  rw [Int.card_Icc] at hcard
  have := List.toFinset_card_le drawn
  simp at hcard
  omega

/-- The double `Rand.ofIndex (v - 1)` stands for the number `v` of `[1, 75]`. -/
theorem randomNumber_ofIndex_toNat (v : ℤ) (h₁ : 1 ≤ v) (h₂ : v ≤ 75) :
    randomNumber (Rand.ofIndex (v - 1).toNat) = v := by
  rw [randomNumber_ofIndex, Nat.mod_eq_of_lt (by omega)]
  omega

/-- C4 as stated fails: with the number 1 drawn, no number of iterations is enough for
every sequence of random values (the sequence 0, 0, 0, ... is rejected for ever). -/
theorem sampleLoop_retry_bound_counterexample :
    ¬ (∀ drawn : List ℤ, drawn.length < maxNumber →
        ∃ N : ℕ, ∀ rnd : RandomSource, ∃ (v : ℤ) (j : ℕ),
          sampleLoop drawn rnd N 0 = some (v, j)) := by
  intro h
  obtain ⟨N, hN⟩ := h [1] (by simp [maxNumber])
  obtain ⟨v, j, hv⟩ := hN (constSource 0)
  have hnone : sampleLoop [1] (constSource 0) N 0 = none :=
    sampleLoop_none _ _ _ _ (fun m _ => by simp [constSource, randomNumber_ofIndex])
  rw [hnone] at hv
  exact absurd hv (by simp)

/-- C4, amended: for a drawn set of fewer than `maxNumber` numbers some random value is
accepted, and on every sequence the loop returns the number of the first accepted
value, after `n + 1` iterations when `n` values are rejected before it (after one
iteration when nothing is drawn). There is no retry budget and no fallback: when a number
of `[1, 75]` is drawn, for every `N` some sequence keeps the loop going for `N`
iterations. -/
theorem sampleLoop_returns_first_accepted (drawn : List ℤ) (hlen : drawn.length < maxNumber) :
    (∃ r : Rand, randomNumber r ∉ drawn) ∧
    (∀ (rnd : RandomSource) (i n fuel : ℕ),
      (∀ m, m < n → randomNumber (rnd (i + m)) ∈ drawn) →
      randomNumber (rnd (i + n)) ∉ drawn → n < fuel →
      sampleLoop drawn rnd fuel i = some (randomNumber (rnd (i + n)), i + n + 1)) ∧
    (drawn = [] → ∀ (rnd : RandomSource) (i fuel : ℕ),
      sampleLoop drawn rnd (fuel + 1) i = some (randomNumber (rnd i), i + 1)) ∧
    (∀ v ∈ drawn, 1 ≤ v → v ≤ 75 →
      ∀ N : ℕ, ∃ rnd : RandomSource, sampleLoop drawn rnd N 0 = none) := by
  refine ⟨?_, fun rnd i n fuel => sampleLoop_first drawn rnd n i fuel, ?_, ?_⟩
  · obtain ⟨v, h₁, h₂, hnot⟩ := exists_undrawn drawn hlen
    exact ⟨Rand.ofIndex (v - 1).toNat, by rw [randomNumber_ofIndex_toNat v h₁ h₂]; exact hnot⟩
  · rintro rfl rnd i fuel
    simp [sampleLoop]
  · intro v hv h₁ h₂ N
    refine ⟨constSource (v - 1).toNat, sampleLoop_none _ _ _ _ (fun m _ => ?_)⟩
    simp only [constSource]
    rw [randomNumber_ofIndex_toNat v h₁ h₂]
    exact hv

/-- With 1 and 2 drawn: the sequence `Rand.ofIndex 0`, `Rand.ofIndex 1`, ... (the
numbers 1, 2, 3, ...) has its first accepted value at
the third place, and the loop returns 3 there. -/
theorem sampleLoop_returns_first_accepted_witness :
    ([(1 : ℤ), 2]).length < maxNumber ∧
    sampleLoop [1, 2] Rand.ofIndex 3 0 = some (3, 3) ∧
    (∀ N : ℕ, ∃ rnd : RandomSource, sampleLoop [1, 2] rnd N 0 = none) :=
  have hlen : ([(1 : ℤ), 2]).length < maxNumber := by simp [maxNumber]
  have hthree : randomNumber (Rand.ofIndex (0 + 2)) = 3 := by simp [randomNumber_ofIndex]
  ⟨hlen,
   by
     have h := (sampleLoop_returns_first_accepted [1, 2] hlen).2.1 Rand.ofIndex 0 2 3
       (fun m hm => by
         have hcases : m = 0 ∨ m = 1 := by omega
         rcases hcases with rfl | rfl <;> simp [randomNumber_ofIndex])
       (by simp [randomNumber_ofIndex]) (by norm_num)
     rw [hthree] at h
     exact h,
   (sampleLoop_returns_first_accepted [1, 2] hlen).2.2.2 1 (by simp) (le_refl _) (by norm_num)⟩

/-- C5 as stated fails: at `progress = 0.7` the code is already in its second phase. -/
theorem speedOf_values_counterexample :
    ¬ (speedOf 0 = 50 ∧ speedOf (7 / 10) = 50 ∧ speedOf (9 / 10) = 100 ∧ speedOf 1 = 400) := by
  intro h
  have h₇ : speedOf (7 / 10) = 100 := by norm_num [speedOf]
  rw [h₇] at h
  norm_num at h

/-- C5, amended: the speed a tick computes is 50 at `progress = 0`, 100 at
`progress = 0.7`, 200 at `progress = 0.9` and 400 at `progress = 1`, where
`progress = elapsed / 3000` (at `elapsed` = 0, 2100, 2700 and 3000). -/
theorem speedOf_values :
    speedOf 0 = 50 ∧ speedOf (7 / 10) = 100 ∧ speedOf (9 / 10) = 200 ∧ speedOf 1 = 400 ∧
    speedOf (0 / duration) = 50 ∧ speedOf (2100 / duration) = 100 ∧
    speedOf (2700 / duration) = 200 ∧ speedOf (3000 / duration) = 400 := by
  norm_num [speedOf, duration]

/-- C6: over `progress` in `[0, 1]` the speed a tick computes does not decrease, the
two phase boundaries included, and lies between 50 and 400. -/
theorem speedOf_monotone (p q : ℚ) (_hp : 0 ≤ p) (hpq : p ≤ q) (hq : q ≤ 1) :
    speedOf p ≤ speedOf q ∧ 50 ≤ speedOf p ∧ speedOf p ≤ 400 ∧
    50 ≤ speedOf q ∧ speedOf q ≤ 400 := by
  unfold speedOf
  split_ifs <;> refine ⟨?_, ?_, ?_, ?_, ?_⟩ <;> linarith

/-- Across the first phase boundary: 50 at `progress = 0.69`, 100 at `progress = 0.7`. -/
theorem speedOf_monotone_witness :
    speedOf (69 / 100) = 50 ∧ speedOf (7 / 10) = 100 ∧
    (speedOf (69 / 100) ≤ speedOf (7 / 10) ∧ 50 ≤ speedOf (69 / 100) ∧
      speedOf (69 / 100) ≤ 400 ∧ 50 ≤ speedOf (7 / 10) ∧ speedOf (7 / 10) ≤ 400) :=
  ⟨by norm_num [speedOf], by norm_num [speedOf],
   speedOf_monotone (69 / 100) (7 / 10) (by norm_num) (by norm_num) (by norm_num)⟩

/-- A request made while a draw is in progress does nothing, whatever the clock, the
random values and the fuel. -/
theorem drawNumber_busy (s : BingoGame) (elapsed : ℚ) (rnd : RandomSource) (fuel : ℕ)
    (hd : s.isDrawing = true) : drawNumber s elapsed rnd fuel = some (s, []) := by
  unfold drawNumber
  rw [if_pos hd]

/-- A step that ends a draw in progress is the completion callback. -/
theorem step_clears_isDrawing (s s' : BingoGame) (h : Step s s') (hd : s.isDrawing = true)
    (hd' : s'.isDrawing = false) :
    ∃ (i : ℕ) (out : List Effect), completionCallback s i = some (s', out) := by
  cases h
  case draw out elapsed rnd fuel h =>
    rw [drawNumber_busy s elapsed rnd fuel hd] at h
    simp only [Option.some.injEq, Prod.mk.injEq] at h
    rw [← h.1, hd] at hd'
    exact absurd hd' (by simp)
  case tick out i elapsed rnd k fuel h =>
    rw [(animate_some _ _ _ _ _ _ _ _ h).2.2.1, hd] at hd'
    exact absurd hd' (by simp)
  case complete out i h => exact ⟨i, out, h⟩
  case reset answer =>
    rcases resetGame_state s answer with h | h
    · rw [h, hd] at hd'
      exact absurd hd' (by simp)
    · rw [h] at hd'
      simp only at hd'
      rw [hd] at hd'
      exact absurd hd' (by simp)

/-- C7: while `isDrawing` is true, `drawNumber` returns at once for every clock, random
source and fuel (so it reads no random value), leaves the state unchanged (pool,
`currentNumber`, `isDrawing`, running animations) and has no effect at all (no sound,
no timer). An accepted request sets `isDrawing`, only the completion callback clears
it, and in every state a new game gets to at most one animation runs, none when
`isDrawing` is false. -/
theorem drawNumber_ignored_while_drawing :
    (∀ (s : BingoGame) (elapsed : ℚ) (rnd : RandomSource) (fuel : ℕ),
      s.isDrawing = true → drawNumber s elapsed rnd fuel = some (s, [])) ∧
    (∀ (s s' : BingoGame) (out : List Effect) (elapsed : ℚ) (rnd : RandomSource) (fuel : ℕ),
      s.isDrawing = false → s.drawnNumbers.length < maxNumber →
      drawNumber s elapsed rnd fuel = some (s', out) → s'.isDrawing = true) ∧
    (∀ s s' : BingoGame, Step s s' → s.isDrawing = true → s'.isDrawing = false →
      ∃ (i : ℕ) (out : List Effect), completionCallback s i = some (s', out)) ∧
    (∀ s : BingoGame, Reachable s →
      s.spins.length ≤ 1 ∧ (s.isDrawing = false → s.spins = [])) := by
  refine ⟨drawNumber_busy, ?_, step_clears_isDrawing, ?_⟩
  · intro s s' out elapsed rnd fuel hd hlen h
    obtain ⟨t, k, out', _, hanim, _⟩ := drawNumber_first_tick _ _ _ _ _ _ hd hlen h
    rw [(animate_some _ _ _ _ _ _ _ _ hanim).2.2.1]
  · intro s hr
    obtain ⟨_, _, hlen, hidle, _⟩ := inv_reachable s hr
    exact ⟨hlen, hidle⟩

/-- C8: `resetGame` calls `confirm` exactly when a number is drawn. With no drawn number
it resets without asking; with a drawn number and the answer no it changes nothing;
with the answer yes the pool becomes empty and `currentNumber` null. It never changes
`isDrawing` or a running animation. -/
theorem resetGame_confirms_iff_drawn (s : BingoGame) (answer : Bool) :
    (Effect.confirm ∈ (resetGame s answer).2 ↔ s.drawnNumbers ≠ []) ∧
    (s.drawnNumbers = [] →
      resetGame s answer =
        ({ s with drawnNumbers := [], currentNumber := none },
         [Effect.displayDash, Effect.clearDrawnNumbersList, Effect.clearBoard])) ∧
    (s.drawnNumbers ≠ [] → answer = false → resetGame s answer = (s, [Effect.confirm])) ∧
    (s.drawnNumbers ≠ [] → answer = true →
      resetGame s answer =
        ({ s with drawnNumbers := [], currentNumber := none },
         [Effect.confirm, Effect.displayDash, Effect.clearDrawnNumbersList,
          Effect.clearBoard])) ∧
    (resetGame s answer).1.isDrawing = s.isDrawing ∧
    (resetGame s answer).1.spins = s.spins := by
  have hpos : s.drawnNumbers.length > 0 ↔ s.drawnNumbers ≠ [] := by
    rw [gt_iff_lt, List.length_pos]
  by_cases hne : s.drawnNumbers ≠ []
  · have hlen := hpos.mpr hne
    cases answer <;> simp [resetGame, hlen, hne]
  · have hnil : s.drawnNumbers = [] := by simpa using hne
    simp [resetGame, hnil]

/-- C9: no tick changes the pool, `currentNumber` or `isDrawing`. In a state a new game
gets to, an accepted request starts the one animation, with the target its loop
found; every later step either keeps that animation and its target (a tick, a reset,
an ignored request) or is its completion callback; and the callback finds the target
`t` of `[1, maxNumber]` outside the pool `D`, makes the pool `D` followed by `t` (one
number more, `[t]` when `D` is empty), sets `currentNumber = t` and `isDrawing = false`
and leaves no animation. `resetGame` leaves the animation and `isDrawing` alone. -/
theorem completion_commits_target :
    (∀ (s s' : BingoGame) (out : List Effect) (i : ℕ) (elapsed : ℚ) (rnd : RandomSource)
      (k fuel : ℕ), animate s i elapsed rnd k fuel = some (s', out) →
      s'.drawnNumbers = s.drawnNumbers ∧ s'.currentNumber = s.currentNumber ∧
      s'.isDrawing = s.isDrawing) ∧
    (∀ (s s' : BingoGame) (out : List Effect) (elapsed : ℚ) (rnd : RandomSource) (fuel : ℕ),
      Reachable s → s.isDrawing = false → s.drawnNumbers.length < maxNumber →
      drawNumber s elapsed rnd fuel = some (s', out) →
      ∃ (t : ℤ) (k : ℕ) (b : Bool), sampleLoop s.drawnNumbers rnd fuel 0 = some (t, k) ∧
        s'.spins = [{ targetNumber := t, settled := b }] ∧ s'.isDrawing = true ∧
        s'.drawnNumbers = s.drawnNumbers ∧ s'.currentNumber = s.currentNumber) ∧
    (∀ (s s' : BingoGame) (t : ℤ) (b : Bool), Reachable s → Step s s' →
      s.spins = [{ targetNumber := t, settled := b }] →
      (∃ b' : Bool, s'.spins = [{ targetNumber := t, settled := b' }] ∧ s'.isDrawing = true) ∨
      (∃ (i : ℕ) (out : List Effect), completionCallback s i = some (s', out))) ∧
    (∀ (s s' : BingoGame) (out : List Effect) (i : ℕ), Reachable s →
      completionCallback s i = some (s', out) →
      ∃ t : ℤ, s.spins = [{ targetNumber := t, settled := true }] ∧
        t ∉ s.drawnNumbers ∧ 1 ≤ t ∧ t ≤ (maxNumber : ℤ) ∧
        s'.drawnNumbers = s.drawnNumbers ++ [t] ∧
        s'.drawnNumbers.length = s.drawnNumbers.length + 1 ∧
        s'.currentNumber = some t ∧ s'.isDrawing = false ∧ s'.spins = [] ∧
        (s.drawnNumbers = [] → s'.drawnNumbers = [t])) ∧
    (∀ (s : BingoGame) (answer : Bool),
      (resetGame s answer).1.spins = s.spins ∧
      (resetGame s answer).1.isDrawing = s.isDrawing) := by
  have hreset : ∀ (s : BingoGame) (answer : Bool),
      (resetGame s answer).1.spins = s.spins ∧
      (resetGame s answer).1.isDrawing = s.isDrawing := by
    intro s answer
    rcases resetGame_state s answer with h | h <;> rw [h] <;> exact ⟨rfl, rfl⟩
  refine ⟨?_, ?_, ?_, ?_, hreset⟩
  · intro s s' out i elapsed rnd k fuel h
    obtain ⟨h₁, h₂, h₃, _⟩ := animate_some _ _ _ _ _ _ _ _ h
    exact ⟨h₁, h₂, h₃⟩
  · intro s s' out elapsed rnd fuel hr hd hlen h
    have hnil := (inv_reachable s hr).2.2.2.1 hd
    rcases drawNumber_some _ _ _ _ _ _ h with ⟨hd', _, _⟩ | ⟨_, hfull, _, _⟩ |
      ⟨_, _, t, k, b, hloop, h₁, h₂, h₃, h₄⟩
    · rw [hd] at hd'
      exact absurd hd' (by simp)
    · omega
    · rw [hnil] at h₄
      exact ⟨t, k, b, hloop, h₄, h₃, h₁, h₂⟩
  · intro s s' t b hr hstep hspin
    have hbusy : s.isDrawing = true := by
      by_contra hfalse
      have := (inv_reachable s hr).2.2.2.1 (by simpa using hfalse)
      rw [this] at hspin
      exact absurd hspin (by simp)
    cases hstep
    case draw out elapsed rnd fuel h =>
      rw [drawNumber_busy s elapsed rnd fuel hbusy] at h
      simp only [Option.some.injEq, Prod.mk.injEq] at h
      rw [← h.1]
      exact Or.inl ⟨b, hspin, hbusy⟩
    case tick out i elapsed rnd k fuel h =>
      obtain ⟨_, _, h₃, sp, hsp, _, hcase⟩ := animate_some _ _ _ _ _ _ _ _ h
      rcases hcase with ⟨_, rfl⟩ | ⟨_, hs⟩
      · exact Or.inl ⟨b, hspin, hbusy⟩
      · obtain ⟨rfl, hone⟩ := spins_singleton _ _ _ (by rw [hspin]; simp) hsp
        rw [hspin] at hone
        simp only [List.cons.injEq, and_true] at hone
        subst hone
        rw [hspin] at hs
        exact Or.inl ⟨true, by rw [hs]; rfl, by rw [h₃]; exact hbusy⟩
    case complete out i h => exact Or.inr ⟨i, out, h⟩
    case reset answer =>
      obtain ⟨h₁, h₂⟩ := hreset s answer
      exact Or.inl ⟨b, by rw [h₁]; exact hspin, by rw [h₂]; exact hbusy⟩
  · intro s s' out i hr h
    obtain ⟨t, _, hspin, hnot, hge, hle, hadd, hcur, hidle, hnone⟩ :=
      completionCallback_reachable _ _ _ _ hr h
    refine ⟨t, hspin, hnot, hge, by simpa [maxNumber] using hle, hadd, ?_, hcur, hidle,
      hnone, ?_⟩
    · rw [hadd]
      simp
    · intro hempty
      rw [hadd, hempty]
      rfl

theorem reachable_resetDuringSpin : Reachable resetDuringSpin := by
  have hr₂ : Reachable (stateAfter 2) :=
    (successfulDraws_grow 2 _ _ (successfulDraws_stateAfter 2 (by norm_num)) Reachable.init).1
  have hfive : ∀ i, randomNumber (constSource 4 i) = 5 := by
    intro i
    simp [constSource, randomNumber_ofIndex]
  have hdrawn : (stateAfter 2).drawnNumbers = [1, 2] := by simp [stateAfter, BingoGame.new]
  have hdraw := drawNumber_accept (stateAfter 2) 0 (constSource 4) 0 rfl
    (by rw [hdrawn]; simp [maxNumber]) (by rw [hfive, hdrawn]; simp)
    (by rw [hfive, hdrawn]; simp) (by norm_num [duration])
  have hr₃ := Reachable.step _ _ hr₂ (Step.draw _ _ _ 0 (constSource 4) (0 + 1) hdraw)
  have hr₄ := Reachable.step _ _ hr₃ (Step.reset _ true)
  have htick := animate_settle
    (resetGame { stateAfter 2 with
      isDrawing := true,
      spins := (stateAfter 2).spins ++
        [{ targetNumber := randomNumber (constSource 4 0), settled := false }] } true).1
    0 { targetNumber := randomNumber (constSource 4 0), settled := false } 3000
    (constSource 0) 0 0 (by simp [resetGame, hdrawn, stateAfter]) rfl (by norm_num [duration])
  have hr₅ := Reachable.step _ _ hr₄ (Step.tick _ _ _ 0 3000 (constSource 0) 0 0 htick)
  have heq : ({ (resetGame { stateAfter 2 with
      isDrawing := true,
      spins := (stateAfter 2).spins ++
        [{ targetNumber := randomNumber (constSource 4 0), settled := false }] } true).1 with
      spins := (resetGame { stateAfter 2 with
        isDrawing := true,
        spins := (stateAfter 2).spins ++
          [{ targetNumber := randomNumber (constSource 4 0), settled := false }] } true).1.spins.set
            0 { targetNumber := randomNumber (constSource 4 0), settled := true } } : BingoGame)
      = resetDuringSpin := by
    simp [resetGame, hdrawn, stateAfter, hfive, resetDuringSpin]
  rw [heq] at hr₅
  exact hr₅

/-- A request in the middle of the spin of `resetDuringSpin` is ignored; that state has
one animation. -/
theorem drawNumber_ignored_while_drawing_witness :
    drawNumber resetDuringSpin 0 (constSource 0) 1 = some (resetDuringSpin, []) ∧
    (resetDuringSpin.spins.length ≤ 1 ∧
      (resetDuringSpin.isDrawing = false → resetDuringSpin.spins = [])) :=
  ⟨drawNumber_ignored_while_drawing.1 resetDuringSpin 0 (constSource 0) 1 rfl,
   drawNumber_ignored_while_drawing.2.2.2 resetDuringSpin reachable_resetDuringSpin⟩

/-- With 1 and 2 drawn and the answer no, nothing changes; with the answer yes the pool
is emptied; a new game is reset without a question. -/
theorem resetGame_confirms_iff_drawn_witness :
    resetGame (stateAfter 2) false = (stateAfter 2, [Effect.confirm]) ∧
    (resetGame (stateAfter 2) true).1.drawnNumbers = [] ∧
    Effect.confirm ∉ (resetGame BingoGame.new true).2 := by
  have hne : (stateAfter 2).drawnNumbers ≠ [] := by simp [stateAfter]
  refine ⟨(resetGame_confirms_iff_drawn (stateAfter 2) false).2.2.1 hne rfl, ?_, ?_⟩
  · rw [(resetGame_confirms_iff_drawn (stateAfter 2) true).2.2.2.1 hne rfl]
  · rw [(resetGame_confirms_iff_drawn BingoGame.new true).1]
    simp [BingoGame.new]

/-- The callback after a reset during the spin: the pool it finds is empty, and it
becomes `[5]`, with `currentNumber = 5` and `isDrawing = false`. -/
theorem completion_commits_target_witness :
    Reachable resetDuringSpin ∧
    (∃ out, completionCallback resetDuringSpin 0 =
      some ({ drawnNumbers := [5], currentNumber := some 5, isDrawing := false, spins := [] },
            out)) ∧
    (∃ t : ℤ, resetDuringSpin.spins = [{ targetNumber := t, settled := true }] ∧
      t ∉ resetDuringSpin.drawnNumbers ∧ 1 ≤ t ∧ t ≤ (maxNumber : ℤ) ∧
      ({ drawnNumbers := [5], currentNumber := some 5, isDrawing := false,
         spins := [] } : BingoGame).drawnNumbers = resetDuringSpin.drawnNumbers ++ [t] ∧
      ({ drawnNumbers := [5], currentNumber := some 5, isDrawing := false,
         spins := [] } : BingoGame).drawnNumbers.length
        = resetDuringSpin.drawnNumbers.length + 1 ∧
      ({ drawnNumbers := [5], currentNumber := some 5, isDrawing := false,
         spins := [] } : BingoGame).currentNumber = some t ∧
      ({ drawnNumbers := [5], currentNumber := some 5, isDrawing := false,
         spins := [] } : BingoGame).isDrawing = false ∧
      ({ drawnNumbers := [5], currentNumber := some 5, isDrawing := false,
         spins := [] } : BingoGame).spins = [] ∧
      (resetDuringSpin.drawnNumbers = [] →
        ({ drawnNumbers := [5], currentNumber := some 5, isDrawing := false,
           spins := [] } : BingoGame).drawnNumbers = [t])) :=
  have hcb : completionCallback resetDuringSpin 0 =
      some ({ drawnNumbers := [5], currentNumber := some 5, isDrawing := false, spins := [] },
            [Effect.displayFinal false, Effect.playFanfare, Effect.markNumber 5,
             Effect.updateDrawnNumbersList [5], Effect.celebrateNumber 5,
             Effect.drawButtonDisabled false]) := by
    simp [completionCallback, resetDuringSpin, setAdd, maxNumber]
  ⟨reachable_resetDuringSpin, ⟨_, hcb⟩,
   completion_commits_target.2.2.2.1 resetDuringSpin _ _ 0 reachable_resetDuringSpin hcb⟩

/-! ## The tick loop on an ideal timer -/

theorem idealElapsed_succ (n : ℕ) :
    idealElapsed (n + 1) =
      if idealElapsed n < duration then idealElapsed n + speedOf (idealElapsed n / duration)
      else idealElapsed n := rfl

/-- The first 42 delays are 50 ms each. -/
theorem idealElapsed_fast (n : ℕ) (hn : n ≤ 42) : idealElapsed n = 50 * (n : ℚ) := by
  induction n with
  | zero => simp [idealElapsed]
  | succ n ih =>
    have hprev := ih (by omega)
    have hlt : (n : ℚ) < 42 := by exact_mod_cast (show n < 42 by omega)
    have hdur : idealElapsed n < duration := by
      rw [hprev, duration]
      linarith
    have hphase : idealElapsed n / duration < 7 / 10 := by
      rw [hprev, duration, div_lt_iff₀ (by norm_num)]
      linarith
    rw [idealElapsed_succ, if_pos hdur, speedOf, if_pos hphase, hprev]
    push_cast
    ring

theorem idealElapsed_42 : idealElapsed 42 = 2100 := by
  rw [idealElapsed_fast 42 (le_refl _)]
  norm_num

theorem idealElapsed_43 : idealElapsed 43 = 2200 := by
  rw [show (43 : ℕ) = 42 + 1 from rfl, idealElapsed_succ, idealElapsed_42]
  norm_num [speedOf, duration]

theorem idealElapsed_44 : idealElapsed 44 = 6950 / 3 := by
  rw [show (44 : ℕ) = 43 + 1 from rfl, idealElapsed_succ, idealElapsed_43]
  norm_num [speedOf, duration]

theorem idealElapsed_45 : idealElapsed 45 = 22075 / 9 := by
  rw [show (45 : ℕ) = 44 + 1 from rfl, idealElapsed_succ, idealElapsed_44]
  norm_num [speedOf, duration]

theorem idealElapsed_46 : idealElapsed 46 = 141025 / 54 := by
  rw [show (46 : ℕ) = 45 + 1 from rfl, idealElapsed_succ, idealElapsed_45]
  norm_num [speedOf, duration]

theorem idealElapsed_47 : idealElapsed 47 = 906175 / 324 := by
  rw [show (47 : ℕ) = 46 + 1 from rfl, idealElapsed_succ, idealElapsed_46]
  norm_num [speedOf, duration]

theorem idealElapsed_48 : idealElapsed 48 = 2975675 / 972 := by
  rw [show (48 : ℕ) = 47 + 1 from rfl, idealElapsed_succ, idealElapsed_47]
  norm_num [speedOf, duration]

/-- The first 48 ticks of the ideal loop, those at `idealElapsed 0`, ...,
`idealElapsed 47`, are spinning ticks. -/
theorem idealElapsed_spinning (m : ℕ) (hm : m < 48) : idealElapsed m < duration := by
  by_cases h : m ≤ 42
  · have hle : (m : ℚ) ≤ 42 := by exact_mod_cast h
    rw [idealElapsed_fast m h, duration]
    linarith
  · have hcases : m = 43 ∨ m = 44 ∨ m = 45 ∨ m = 46 ∨ m = 47 := by omega
    rcases hcases with rfl | rfl | rfl | rfl | rfl
    · rw [idealElapsed_43]; norm_num [duration]
    · rw [idealElapsed_44]; norm_num [duration]
    · rw [idealElapsed_45]; norm_num [duration]
    · rw [idealElapsed_46]; norm_num [duration]
    · rw [idealElapsed_47]; norm_num [duration]

/-- C10: on an ideal timer (`idealElapsed`: the first tick at 0, each spinning tick
followed by the next after the delay it passes to `setTimeout`) the tick loop is
finite. The ticks 0 to 47 are spinning ticks: whenever its decoy loop returns, such
a tick schedules the next tick after the speed it computed, which is the step of the
ideal clock. Tick 48 (48 is at most 60) is the first at `elapsed ≥ 3000`: for every
random source and fuel, fuel 0 included, it reads no random value, displays the target
and starts the 500 ms timer of the callback. The overshoot `idealElapsed 48 - 3000` is
at most the speed of tick 47, and less than 400. -/
theorem ideal_tick_loop_finite :
    ∃ n : ℕ, n ≤ 60 ∧
      (∀ m, m < n → idealElapsed m < duration) ∧
      (∀ m, m < n → 50 ≤ speedOf (idealElapsed m / duration)) ∧
      (∀ m, m < n → ∀ (s : BingoGame) (i : ℕ) (sp : Spin) (rnd : RandomSource)
        (k fuel : ℕ) (decoy : ℤ) (j : ℕ),
        s.spins.get? i = some sp → sp.settled = false →
        sampleLoop s.drawnNumbers rnd fuel k = some (decoy, j) →
        animate s i (idealElapsed m) rnd k fuel =
          some (s, [Effect.displayText decoy, Effect.displayHue ((rnd j).val * 360),
                    Effect.playTickSound (400 + (rnd (j + 1)).val * 800),
                    Effect.setTimeoutAnimate (idealElapsed (m + 1) - idealElapsed m)])) ∧
      duration ≤ idealElapsed n ∧
      (∀ (s : BingoGame) (i : ℕ) (sp : Spin) (rnd : RandomSource) (k fuel : ℕ),
        s.spins.get? i = some sp → sp.settled = false →
        animate s i (idealElapsed n) rnd k fuel =
          some ({ s with spins := s.spins.set i { targetNumber := sp.targetNumber,
                                                   settled := true } },
                [Effect.displaySpinning false, Effect.displayText sp.targetNumber,
                 Effect.displayGreen, Effect.displayFinal true,
                 Effect.setTimeoutCallback 500])) ∧
      idealElapsed n - duration ≤ speedOf (idealElapsed (n - 1) / duration) ∧
      idealElapsed n - duration < 400 := by
  refine ⟨48, by norm_num, idealElapsed_spinning, ?_, ?_, ?_, ?_, ?_, ?_⟩
  · intro m hm
    have h₀ : 0 ≤ idealElapsed m / duration := by
      by_cases h : m ≤ 42
      · rw [idealElapsed_fast m h, duration]
        positivity
      · have hcases : m = 43 ∨ m = 44 ∨ m = 45 ∨ m = 46 ∨ m = 47 := by omega
        rcases hcases with rfl | rfl | rfl | rfl | rfl
        · rw [idealElapsed_43]; norm_num [duration]
        · rw [idealElapsed_44]; norm_num [duration]
        · rw [idealElapsed_45]; norm_num [duration]
        · rw [idealElapsed_46]; norm_num [duration]
        · rw [idealElapsed_47]; norm_num [duration]
    unfold speedOf
    split_ifs <;> linarith
  · intro m hm s i sp rnd k fuel decoy j hsp hset hloop
    have hlt := idealElapsed_spinning m hm
    rw [animate_spin s i sp _ rnd k fuel decoy j hsp hset hlt hloop, idealElapsed_succ,
      if_pos hlt]
    simp
  · rw [idealElapsed_48]
    norm_num [duration]
  · intro s i sp rnd k fuel hsp hset
    exact animate_settle s i sp _ rnd k fuel hsp hset (by
      rw [idealElapsed_48]
      norm_num [duration])
  · rw [show (48 : ℕ) - 1 = 47 from rfl, idealElapsed_48, idealElapsed_47]
    norm_num [speedOf, duration]
  · rw [idealElapsed_48]
    norm_num [duration]

end Bingo
